import Mathlib

/-!
Shallow embedding of `RealtimeSTT/audio_recorder.py` (AudioToTextRecorder and its
worker routines), together with theorems settling the claims about it.

Conventions:
* an audio frame is the list of its int16 samples (`Frame := List ℤ`);
* wall-clock times and durations (Python floats) are modelled as rationals;
* Python `int(x)` on a nonnegative value is `Int.floor` followed by `Int.toNat`;
* the bounded `collections.deque(maxlen=cap)` is modelled by `dequeAppend`.
-/

namespace RealtimeSTT

abbrev Frame := List ℤ

lemma dropWhile_length_le {α : Type} (p : α → Bool) (l : List α) :
    (List.dropWhile p l).length ≤ l.length := by
  induction l with
  | nil => simp
  | cons a t ih =>
      by_cases h : p a
      · simp only [List.dropWhile_cons, h, if_true, List.length_cons]
        omega
      · simp [List.dropWhile_cons, h]

/-- Appending to a `collections.deque` with `maxlen = cap`: the new element goes to
the back and elements are evicted from the front so that at most `cap` remain
(`maxlen = 0` keeps the deque empty, as in Python). -/
def dequeAppend (cap : ℕ) (items : List Frame) (x : Frame) : List Frame :=
  ((items ++ [x]).drop ((items ++ [x]).length - cap))

/-- `audio_buffer` capacity as computed in `AudioToTextRecorder.__init__`:
`int((self.sample_rate // self.buffer_size) * self.pre_recording_buffer_duration)`.
Note the integer floor division `//` and the truncating `int(...)`. -/
def audioBufferCapacity (sample_rate buffer_size : ℕ) (pre_recording_buffer_duration : ℚ) : ℕ :=
  (Int.floor (((sample_rate / buffer_size : ℕ) : ℚ) * pre_recording_buffer_duration)).toNat

/-- Capacity as the specification words it:
`⌈(sample_rate / frame_size) × pre_recording_buffer_duration⌉` with real division. -/
def specCeilCapacity (sample_rate frame_size : ℕ) (pre_recording_buffer_duration : ℚ) : ℕ :=
  (Int.ceil ((sample_rate : ℚ) / (frame_size : ℚ) * pre_recording_buffer_duration)).toNat

/-- Feeding a sequence of frames into the (initially empty) pre-roll buffer, one
`audio_buffer.append(data)` per processed frame (line `self.audio_buffer.append(data)`
of `_recording_worker`). -/
def feedFrames (cap : ℕ) (fs : List Frame) : List Frame :=
  fs.foldl (dequeAppend cap) []

lemma dequeAppend_drop (cap : ℕ) (fs : List Frame) (x : Frame) :
    dequeAppend cap (fs.drop (fs.length - cap)) x =
      (fs ++ [x]).drop ((fs ++ [x]).length - cap) := by
  unfold dequeAppend
  have hlen : (fs.drop (fs.length - cap)).length = fs.length - (fs.length - cap) :=
    List.length_drop _ _
  have hsplit : (fs ++ [x]).drop (fs.length - cap)
      = fs.drop (fs.length - cap) ++ [x] := by
    rw [List.drop_append_eq_append_drop]
    have h1 : fs.length - cap - fs.length = 0 := by omega
    rw [h1]
    simp
  rw [← hsplit, List.drop_drop]
  congr 1
  simp only [List.length_append, List.length_drop, List.length_cons, List.length_nil]
  omega

/-- The pre-roll buffer after feeding `fs` holds exactly the suffix of the most
recent `min (fs.length) cap` frames, in arrival order. -/
theorem feedFrames_eq_drop (cap : ℕ) (fs : List Frame) :
    feedFrames cap fs = fs.drop (fs.length - cap) := by
  induction fs using List.reverseRecOn with
  | nil => simp [feedFrames]
  | append_singleton fs x ih =>
      unfold feedFrames at ih ⊢
      rw [List.foldl_append, ih]
      simpa using dequeAppend_drop cap fs x

lemma feedFrames_length (cap : ℕ) (fs : List Frame) :
    (feedFrames cap fs).length = min fs.length cap := by
  rw [feedFrames_eq_drop, List.length_drop]
  omega

/-- The wake-word sample-trim loop of `_recording_worker` (the
`while wakeword_samples_to_remove > 0 and self.frames:` loop).  In the
partial-frame branch the source assigns the unused local `samples_to_remove = 0`
instead of clearing `wakeword_samples_to_remove`, so the counter stays positive
after the front frame has been sliced; this embedding reproduces that faithfully. -/
def wakewordTrim (wakewordSamplesToRemove : ℕ) (frames : List Frame) : List Frame :=
  match frames with
  | [] => frames
  | frame :: rest =>
    if _hw : 0 < wakewordSamplesToRemove then
      if _hle : frame.length ≤ wakewordSamplesToRemove then
        wakewordTrim (wakewordSamplesToRemove - frame.length) rest
      else
        wakewordTrim wakewordSamplesToRemove (frame.drop wakewordSamplesToRemove :: rest)
    else frames
  termination_by (((frames.map List.length).sum : ℕ), frames.length)
  decreasing_by
  · simp only [List.map_cons, List.sum_cons, List.length_cons]
    rcases Nat.eq_zero_or_pos frame.length with h0 | h0
    · rw [h0, Nat.zero_add]
      exact Prod.Lex.right _ (Nat.lt_succ_self _)
    · exact Prod.Lex.left _ _ (by omega)
  · simp only [List.map_cons, List.sum_cons, List.length_cons, List.length_drop]
    exact Prod.Lex.left _ _ (by omega)

/-- The `while (self.audio_queue.qsize() > self.allowed_latency_limit): data = self.audio_queue.get()`
drain of `_recording_worker`: oldest frames (queue front) are removed until the
depth is at most the limit. -/
def drainOldest (allowedLatencyLimit : ℕ) (q : List Frame) : List Frame :=
  if _h : allowedLatencyLimit < q.length then
    match q with
    | [] => []
    | _ :: rest => drainOldest allowedLatencyLimit rest
  else q
  termination_by q.length

/-- The overflow-handling block of `_recording_worker` (guarded by
`self.handle_buffer_overflow`): returns the remaining queue contents and whether
the overflow warning was logged. -/
def handleOverflow (handleBufferOverflow : Bool) (allowedLatencyLimit : ℕ)
    (q : List Frame) : List Frame × Bool :=
  if handleBufferOverflow then
    (drainOldest allowedLatencyLimit q, decide (allowedLatencyLimit < q.length))
  else (q, false)

lemma drainOldest_eq_drop (lim : ℕ) (q : List Frame) :
    drainOldest lim q = q.drop (q.length - lim) := by
  induction q with
  | nil => simp [drainOldest]
  | cons x rest ih =>
      unfold drainOldest
      by_cases h : lim < (x :: rest).length
      · simp only [h, dif_pos, ih]
        have : (x :: rest).length - lim = (rest.length - lim) + 1 := by
          simp only [List.length_cons] at h ⊢
          omega
        rw [this]
        simp
      · simp only [h, dif_neg, not_false_iff]
        have : (x :: rest).length - lim = 0 := by
          simp only [List.length_cons] at h ⊢
          omega
        rw [this, List.drop_zero]

/-! ### Shutdown (`AudioToTextRecorder.shutdown`) -/

/-- The externally visible teardown actions performed by `shutdown`. -/
inductive TeardownEffect
  | printShutdownMessage
  | setShutdownFlags
  | joinRecordingThread
  | joinReaderProcess
  | terminateReaderProcess
  | joinTranscriptProcess
  | terminateTranscriptProcess
  | closeTranscriptionPipe
  deriving DecidableEq, Repr

/-- The state `shutdown` reads and writes.  `readerAliveAfterJoin` and
`transcriptAliveAfterJoin` model whether the respective worker is still alive
when its timed join returns (environment facts the code branches on). -/
structure ShutState where
  isShutDown : Bool
  useMicrophone : Bool
  hasRecordingThread : Bool
  readerAliveAfterJoin : Bool
  transcriptAliveAfterJoin : Bool
  deriving DecidableEq, Repr

/-- `AudioToTextRecorder.shutdown`: under `shutdown_lock`, returns at once if
`is_shut_down` is already set; otherwise sets the flag and performs the teardown
sequence exactly once. -/
def shutdown (s : ShutState) : ShutState × List TeardownEffect :=
  if s.isShutDown then (s, [])
  else
    ({ s with isShutDown := true },
      [TeardownEffect.printShutdownMessage, TeardownEffect.setShutdownFlags]
      ++ (if s.hasRecordingThread then [TeardownEffect.joinRecordingThread] else [])
      ++ (if s.useMicrophone then
            [TeardownEffect.joinReaderProcess]
            ++ (if s.readerAliveAfterJoin then [TeardownEffect.terminateReaderProcess] else [])
          else [])
      ++ [TeardownEffect.joinTranscriptProcess]
      ++ (if s.transcriptAliveAfterJoin then [TeardownEffect.terminateTranscriptProcess] else [])
      ++ [TeardownEffect.closeTranscriptionPipe])

/-- Iterating `shutdown` `n` times, accumulating all effects. -/
def shutdownTimes : ℕ → ShutState → ShutState × List TeardownEffect
  | 0, s => (s, [])
  | n + 1, s =>
      let r1 := shutdown s
      let r2 := shutdownTimes n r1.1
      (r2.1, r1.2 ++ r2.2)

lemma shutdown_isShutDown (s : ShutState) : (shutdown s).1.isShutDown = true := by
  unfold shutdown
  by_cases h : s.isShutDown <;> simp [h]

lemma shutdown_of_isShutDown (s : ShutState) (h : s.isShutDown = true) :
    shutdown s = (s, []) := by
  unfold shutdown
  simp [h]

lemma shutdownTimes_of_isShutDown (n : ℕ) (s : ShutState) (h : s.isShutDown = true) :
    shutdownTimes n s = (s, []) := by
  induction n with
  | zero => rfl
  | succ n ih =>
      unfold shutdownTimes
      rw [shutdown_of_isShutDown s h]
      simp [ih]

/-! ### In-flight transcription counter (`transcribe_count`) -/

/-- The shared state touched by `transcribe` and the early-transcription dispatch
in `_recording_worker`: the in-flight request counter (an `ℤ`, so that "never
negative" is a real statement) and `allowed_to_early_transcribe`. -/
structure CounterState where
  transcribeCount : ℤ
  allowedToEarlyTranscribe : Bool
  deriving DecidableEq, Repr

/-- One atomic action on `transcribe_count`, for a given setting of
`early_transcription_on_silence` (`earlyEnabled`):

* `earlyDispatch`: `_recording_worker` sends a speculative request
  (`self.transcribe_count += 1`, `self.allowed_to_early_transcribe = False`),
  only when early transcription is enabled and currently allowed;
* `speechResume`: speech resumes during a silence episode
  (`self.allowed_to_early_transcribe = True`);
* `send`: `transcribe` sends the official request when `transcribe_count == 0`;
* `recv`: the `while self.transcribe_count > 0` loop receives one result and
  decrements;
* `loopDone`: `transcribe` leaves the wait loop (`transcribe_count == 0`) and
  re-enables early transcription. -/
inductive CounterStep (earlyEnabled : Bool) : CounterState → CounterState → Prop
  | earlyDispatch (s : CounterState) :
      earlyEnabled = true → s.allowedToEarlyTranscribe = true →
      CounterStep earlyEnabled s ⟨s.transcribeCount + 1, false⟩
  | speechResume (s : CounterState) :
      CounterStep earlyEnabled s ⟨s.transcribeCount, true⟩
  | send (s : CounterState) :
      s.transcribeCount = 0 →
      CounterStep earlyEnabled s ⟨s.transcribeCount + 1, s.allowedToEarlyTranscribe⟩
  | recv (s : CounterState) :
      0 < s.transcribeCount →
      CounterStep earlyEnabled s ⟨s.transcribeCount - 1, s.allowedToEarlyTranscribe⟩
  | loopDone (s : CounterState) :
      s.transcribeCount = 0 →
      CounterStep earlyEnabled s ⟨s.transcribeCount, true⟩

/-- States reachable from the initial state (`transcribe_count = 0`,
early transcription allowed) by any interleaving of the actions. -/
inductive CounterReach (earlyEnabled : Bool) : CounterState → Prop
  | init : CounterReach earlyEnabled ⟨0, true⟩
  | step {s s' : CounterState} :
      CounterReach earlyEnabled s → CounterStep earlyEnabled s s' →
      CounterReach earlyEnabled s'

lemma counterReach_nonneg {e : Bool} {s : CounterState} (h : CounterReach e s) :
    0 ≤ s.transcribeCount := by
  induction h with
  | init => simp
  | step _ hs ih =>
      cases hs with
      | earlyDispatch he ha => simp only []; omega
      | speechResume => simpa using ih
      | send h0 => simp only []; omega
      | recv hpos => simp only []; omega
      | loopDone h0 => simpa using ih

lemma counterReach_le_one {s : CounterState} (h : CounterReach false s) :
    s.transcribeCount ≤ 1 := by
  induction h with
  | init => simp
  | step _ hs ih =>
      cases hs with
      | earlyDispatch he ha => exact absurd he (by simp)
      | speechResume => simpa using ih
      | send h0 => simp only []; omega
      | recv hpos => simp only []; omega
      | loopDone h0 => simpa using ih

/-! ### Recording controller (`_recording_worker`, recording branch, and `stop`) -/

/-- Configuration fields of `AudioToTextRecorder` used by the recording branch. -/
structure RecCfg where
  minLengthOfRecording : ℚ
  postSpeechSilenceDuration : ℚ
  earlyTranscriptionOnSilence : ℚ
  audioBufferCap : ℕ

/-- Controller-owned mutable state touched by the recording branch of
`_recording_worker` and by `stop`.  Times are wall-clock rationals; a
`speechEndSilenceStart` of `0` means "silence timer not running", as in the
source.  `wasRecordingPrev` is the worker-local `was_recording`. -/
structure RecState where
  isRecording : Bool
  stopRecordingOnVoiceDeactivity : Bool
  speechEndSilenceStart : ℚ
  recordingStartTime : ℚ
  recordingStopTime : ℚ
  lastRecordingStartTime : ℚ
  lastRecordingStopTime : ℚ
  frames : List Frame
  lastFrames : List Frame
  audioBuffer : List Frame
  startRecordingEvent : Bool
  stopRecordingEvent : Bool
  allowedToEarlyTranscribe : Bool
  transcribeCount : ℕ
  backdateStopSeconds : ℚ
  backdateResumeSeconds : ℚ
  wasRecordingPrev : Bool

/-- `AudioToTextRecorder.stop(backdate_stop_seconds, backdate_resume_seconds)`
called at wall-clock time `t` (spinner/VAD-flag bookkeeping and callbacks are
not represented).  If the recording is younger than `min_length_of_recording`
the call is a no-op. -/
def stopRec (cfg : RecCfg) (t bStop bResume : ℚ) (st : RecState) : RecState :=
  if t - st.recordingStartTime < cfg.minLengthOfRecording then st
  else
    { st with
      lastFrames := st.frames
      backdateStopSeconds := bStop
      backdateResumeSeconds := bResume
      isRecording := false
      recordingStopTime := t
      startRecordingEvent := false
      stopRecordingEvent := true
      lastRecordingStartTime := st.recordingStartTime
      lastRecordingStopTime := t }

/-- "Voice deactivity was detected": start the silence timer (only once the
recording is older than `min_length_of_recording`), then possibly dispatch an
early transcription request. -/
def silenceFrameUpdate (cfg : RecCfg) (t : ℚ) (st : RecState) : RecState :=
  let sta :=
    if st.speechEndSilenceStart = 0 ∧
        t - st.recordingStartTime > cfg.minLengthOfRecording then
      { st with speechEndSilenceStart := t }
    else st
  if sta.speechEndSilenceStart ≠ 0 ∧ cfg.earlyTranscriptionOnSilence ≠ 0 ∧
      sta.frames ≠ [] ∧
      t - sta.speechEndSilenceStart > cfg.earlyTranscriptionOnSilence ∧
      sta.allowedToEarlyTranscribe = true then
    { sta with
      transcribeCount := sta.transcribeCount + 1
      allowedToEarlyTranscribe := false }
  else sta

/-- Speech resumed: reset the silence timer and re-allow early transcription. -/
def speechFrameUpdate (st : RecState) : RecState :=
  if st.speechEndSilenceStart ≠ 0 then
    { st with speechEndSilenceStart := 0, allowedToEarlyTranscribe := true }
  else st

/-- "Wait for silence to stop recording after speech": when the running silence
timer reaches `post_speech_silence_duration`, append the current frame and call
`stop`; reports `failed_stop_attempt`. -/
def silenceStopCheck (cfg : RecCfg) (t : ℚ) (data : Frame) (st : RecState) :
    RecState × Bool :=
  if st.speechEndSilenceStart ≠ 0 ∧
      t - st.speechEndSilenceStart ≥ cfg.postSpeechSilenceDuration then
    let st3 := stopRec cfg t 0 0 { st with frames := st.frames ++ [data] }
    if st3.isRecording = false then
      ({ st3 with speechEndSilenceStart := 0 }, false)
    else (st3, true)
  else (st, false)

/-- The `if self.stop_recording_on_voice_deactivity:` block of the recording
branch. -/
def deactivityBlock (cfg : RecCfg) (t : ℚ) (isSpeech : Bool) (data : Frame)
    (st : RecState) : RecState × Bool :=
  if st.stopRecordingOnVoiceDeactivity then
    silenceStopCheck cfg t data
      (if ¬isSpeech then silenceFrameUpdate cfg t st else speechFrameUpdate st)
  else (st, false)

/-- Loop tail shared by both branches: reset `stop_recording_on_voice_deactivity`
after a stop, update `was_recording`, append the frame to the open utterance,
and append to the pre-roll buffer. -/
def loopTail (cfg : RecCfg) (data : Frame) (failedStopAttempt : Bool)
    (st : RecState) : RecState :=
  let st5 :=
    if st.isRecording = false ∧ st.wasRecordingPrev = true then
      { st with stopRecordingOnVoiceDeactivity := false }
    else st
  let st6 := { st5 with wasRecordingPrev := st5.isRecording }
  let st7 :=
    if st6.isRecording = true ∧ failedStopAttempt = false then
      { st6 with frames := st6.frames ++ [data] }
    else st6
  if st7.isRecording = false ∨ st7.speechEndSilenceStart ≠ 0 then
    { st7 with audioBuffer := dequeAppend cfg.audioBufferCap st7.audioBuffer data }
  else st7

/-- One pass of the `_recording_worker` loop for a frame `data` arriving at time
`t` while `self.is_recording` holds, with `isSpeech` the silence/speech
classification of the frame (`_is_silero_speech` / `_is_webrtc_speech`) and the
wake-word trim counter already consumed.  Mirrors the `else:` branch at
"If we are currently recording" followed by the loop tail (the
`was_recording` update, the frame append, and the `audio_buffer` append). -/
def recordingFrameStep (cfg : RecCfg) (st : RecState) (t : ℚ) (isSpeech : Bool)
    (data : Frame) : RecState :=
  let r := deactivityBlock cfg t isSpeech data st
  loopTail cfg data r.2 r.1

/-- Processing a trace of `(time, is_speech, data)` frames through the recording
branch. -/
def runRecording (cfg : RecCfg) (st : RecState) (events : List (ℚ × Bool × Frame)) :
    RecState :=
  events.foldl (fun s e => recordingFrameStep cfg s e.1 e.2.1 e.2.2) st

/-! ### `wait_audio` finalization (backdating) -/

/-- Python `int(q)` for a rational: truncation toward zero. -/
def pyInt (q : ℚ) : ℤ :=
  if 0 ≤ q then Int.floor q else Int.ceil q

/-- int16 → normalized float, `x / INT16_MAX_ABS_VALUE` with
`INT16_MAX_ABS_VALUE = 32768.0`. -/
def int16ToFloat (z : ℤ) : ℚ := (z : ℚ) / 32768

/-- float → int16, `(x * INT16_MAX_ABS_VALUE).astype(np.int16)`:
scale, truncate toward zero, wrap to the int16 range. -/
def floatToInt16 (q : ℚ) : ℤ :=
  (pyInt (q * 32768) + 32768) % 65536 - 32768

/-- Splitting a sample list into 2048-byte (1024-sample) frames, the
`for i in range(0, len(frame_bytes), FRAME_SIZE)` loop of `wait_audio`. -/
def chunkFrames1024 (l : List ℤ) : List Frame :=
  if l.isEmpty then [] else l.take 1024 :: chunkFrames1024 (l.drop 1024)
  termination_by l.length
  decreasing_by
    rename_i h
    simp only [List.isEmpty_eq_true] at h
    have hlen : 0 < l.length := List.length_pos.mpr h
    simp only [List.length_drop]
    omega

/-- Result of the finalization step of `wait_audio`. -/
structure WaitAudioOut where
  audio : List ℚ
  frames : List Frame
  backdateStopSeconds : ℚ
  backdateResumeSeconds : ℚ

/-- The flat int16 sample stream of the captured frames,
`np.frombuffer(b''.join(frames), dtype=np.int16)`. -/
def joinedSamples (frames : List Frame) : List ℤ := frames.flatten

/-- The body of `wait_audio` from "Calculate samples needed for backdating
resume" through "Reset backdating parameters": converts the captured frames to a
normalized float array, retains the resume-backdate tail as the next pre-roll
frames, trims the stop-backdate tail off the finalized audio, and zeroes both
backdate offsets. -/
def waitAudioFinalize (sampleRate : ℕ) (framesIn lastFrames : List Frame)
    (backdateStopSeconds backdateResumeSeconds : ℚ) : WaitAudioOut :=
  let frames := if framesIn.isEmpty then lastFrames else framesIn
  let samplesToKeep := (pyInt ((sampleRate : ℚ) * backdateResumeSeconds)).toNat
  let fullAudio := (joinedSamples frames).map int16ToFloat
  let framesToRead :=
    if 0 < samplesToKeep then
      let keep := min samplesToKeep fullAudio.length
      let tail := fullAudio.drop (fullAudio.length - keep)
      chunkFrames1024 (tail.map floatToInt16)
    else []
  let samplesToRemove := (pyInt ((sampleRate : ℚ) * backdateStopSeconds)).toNat
  let audio :=
    if 0 < samplesToRemove then
      if samplesToRemove < fullAudio.length then
        fullAudio.take (fullAudio.length - samplesToRemove)
      else []
    else fullAudio
  { audio := audio
    frames := framesToRead
    backdateStopSeconds := 0
    backdateResumeSeconds := 0 }

/-! ### `feed_audio` vs the capture worker's `preprocess_audio` -/

/-- An input chunk as the two source functions see it: a NumPy array (mono or
2-D stereo, sample values rationals) or raw int16 bytes. -/
inductive AudioChunk
  | mono (xs : List ℚ)
  | stereo (xs : List (ℚ × ℚ))
  | rawBytes (bs : List ℤ)

/-- The signature of `scipy.signal.resample` (an external collaborator): sample
list and requested output length.  Both source paths call the same function, so
the embedding is parametric in it. -/
abbrev ResampleFn := List ℚ → ℕ → List ℚ

/-- `np.mean(chunk, axis=1)` for a stereo chunk. -/
def stereoToMono (xs : List (ℚ × ℚ)) : List ℚ :=
  xs.map (fun p => (p.1 + p.2) / 2)

/-- `.astype(np.int16)` on a float array: truncate toward zero and wrap. -/
def astypeInt16 (xs : List ℚ) : List ℤ :=
  xs.map (fun q => (pyInt q + 32768) % 65536 - 32768)

/-- `preprocess_audio(chunk, original_sample_rate, target_sample_rate)` defined
inside `_audio_data_worker`, returning the int16 byte stream it enqueues.
`num_samples = int(len(chunk) * target_sample_rate / original_sample_rate)`. -/
def preprocessAudio (rs : ResampleFn) (originalSampleRate targetSampleRate : ℕ) :
    AudioChunk → List ℤ
  | AudioChunk.mono xs =>
      let xs :=
        if originalSampleRate ≠ targetSampleRate then
          rs xs (xs.length * targetSampleRate / originalSampleRate)
        else xs
      astypeInt16 xs
  | AudioChunk.stereo xs =>
      let ys := stereoToMono xs
      let ys :=
        if originalSampleRate ≠ targetSampleRate then
          rs ys (ys.length * targetSampleRate / originalSampleRate)
        else ys
      astypeInt16 ys
  | AudioChunk.rawBytes bs =>
      if originalSampleRate ≠ targetSampleRate then
        astypeInt16 (rs (bs.map (fun z => (z : ℚ)))
          (bs.length * targetSampleRate / originalSampleRate))
      else bs

/-- The preprocessing performed by `AudioToTextRecorder.feed_audio` before the
chunk is appended to `self.buffer`: NumPy arrays get stereo-to-mono collapse,
resampling to the hardcoded 16000 Hz, and an int16 cast; byte chunks are
appended unchanged. -/
def feedAudioPreprocess (rs : ResampleFn) (originalSampleRate : ℕ) :
    AudioChunk → List ℤ
  | AudioChunk.mono xs =>
      let xs :=
        if originalSampleRate ≠ 16000 then
          rs xs (xs.length * 16000 / originalSampleRate)
        else xs
      astypeInt16 xs
  | AudioChunk.stereo xs =>
      let ys := stereoToMono xs
      let ys :=
        if originalSampleRate ≠ 16000 then
          rs ys (ys.length * 16000 / originalSampleRate)
        else ys
      astypeInt16 ys
  | AudioChunk.rawBytes bs => bs

/-- A concrete length-correct stand-in for `scipy.signal.resample`, used to
evaluate the embedding at closed inputs (only the output length matters there). -/
def resampleModel : ResampleFn := fun xs n => (xs ++ List.replicate n 0).take n

lemma resampleModel_length (xs : List ℚ) (n : ℕ) : (resampleModel xs n).length = n := by
  simp [resampleModel]

/-! ### Output normalization (`_preprocess_output`) -/

/-- Python's `\s` / `str.strip()` whitespace class (ASCII part):
space, tab, newline, carriage return, vertical tab, form feed. -/
def isPySpace (c : Char) : Bool :=
  c == ' ' || c == '\t' || c == '\n' || c == Char.ofNat 13 ||
    c == Char.ofNat 11 || c == Char.ofNat 12

/-- Remove leading whitespace (left half of `str.strip()`). -/
def lstrip (l : List Char) : List Char := l.dropWhile isPySpace

/-- Remove trailing whitespace (right half of `str.strip()`). -/
def rstrip (l : List Char) : List Char :=
  match l with
  | [] => []
  | c :: t =>
      match rstrip t with
      | [] => if isPySpace c then [] else [c]
      | r => c :: r

/-- `re.sub(r'\s+', ' ', text)`: replace every maximal whitespace run by a
single space. -/
def subWsRuns : List Char → List Char
  | [] => []
  | c :: rest =>
    if isPySpace c then ' ' :: subWsRuns (rest.dropWhile isPySpace)
    else c :: subWsRuns rest
  termination_by l => l.length
  decreasing_by
  · simp only [List.length_cons]
    exact Nat.lt_succ_of_le (dropWhile_length_le _ _)
  · simp only [List.length_cons]
    omega

/-- `AudioToTextRecorder._preprocess_output(text, preview)`: strip, collapse
whitespace runs, optionally uppercase the first character, optionally append a
final period after an alphanumeric last character. -/
def preprocessOutput (ensureUpper ensurePeriod preview : Bool) (text : List Char) :
    List Char :=
  let t := subWsRuns (rstrip (lstrip text))
  let t :=
    if ensureUpper then
      match t with
      | [] => []
      | c :: r => c.toUpper :: r
    else t
  if preview = false ∧ ensurePeriod = true then
    match t.getLast? with
    | some c => if c.isAlphanum then t ++ ['.'] else t
    | none => t
  else t

/-- Maximal non-whitespace runs of a character list, in order. -/
def wordsOf : List Char → List (List Char)
  | [] => []
  | c :: rest =>
    if isPySpace c then wordsOf rest
    else
      (c :: rest.takeWhile (fun d => !isPySpace d)) ::
        wordsOf (rest.dropWhile (fun d => !isPySpace d))
  termination_by l => l.length
  decreasing_by
  · simp only [List.length_cons]
    omega
  · simp only [List.length_cons]
    exact Nat.lt_succ_of_le (dropWhile_length_le _ _)

/-- Words joined by single spaces. -/
def joinWords : List (List Char) → List Char
  | [] => []
  | [w] => w
  | w :: ws => w ++ ' ' :: joinWords ws

/-- Modelled from the claim's words: the model output with leading/trailing
whitespace stripped and every internal whitespace run collapsed to a single
space (its whitespace-separated words joined by single spaces), then first
character uppercased / final '.' appended under the same flags. -/
def specNormalize (ensureUpper ensurePeriod : Bool) (text : List Char) : List Char :=
  let t := joinWords (wordsOf (rstrip (lstrip text)))
  let t :=
    if ensureUpper then
      match t with
      | [] => []
      | c :: r => c.toUpper :: r
    else t
  if ensurePeriod = true then
    match t.getLast? with
    | some c => if c.isAlphanum then t ++ ['.'] else t
    | none => t
  else t

/-! ### `transcribe` wait loop and `text` entry gate -/

/-- One iteration's worth of pipe activity observed by `transcribe`'s
`while self.transcribe_count > 0` loop: either `poll(0.1)` timed out (with the
interrupt flag's value at that moment) or a `(status, result)` message arrived. -/
inductive PollStep
  | timeout (interruptSet : Bool)
  | arrive (ok : Bool) (payload : List Char)

/-- How a `transcribe` (or `text`) call ends. -/
inductive TranscribeOutcome
  | returnedEmptyInterrupted
  | success (text : List Char)
  | raisedError (reason : List Char)
  | stillWaiting
  deriving DecidableEq

/-- The wait loop of `transcribe` (lines `while self.transcribe_count > 0: ...`
onward): on a poll timeout with the interrupt flag set it returns the empty
string (`returnedEmptyInterrupted`); each arriving message decrements the
count; once the count reaches zero the last message's status decides between
normalized success text (empty if the interrupt flag is set by then,
`finalInterrupt`) and a raised exception. -/
def transcribeWait (eU eP finalInterrupt : Bool) :
    List PollStep → ℕ → Option (Bool × List Char) → TranscribeOutcome
  | _, 0, some (true, res) =>
      if finalInterrupt then TranscribeOutcome.returnedEmptyInterrupted
      else TranscribeOutcome.success (preprocessOutput eU eP false res)
  | _, 0, some (false, res) => TranscribeOutcome.raisedError res
  | _, 0, none => TranscribeOutcome.stillWaiting
  | [], _ + 1, _ => TranscribeOutcome.stillWaiting
  | PollStep.timeout intr :: rest, n + 1, last =>
      if intr then TranscribeOutcome.returnedEmptyInterrupted
      else transcribeWait eU eP finalInterrupt rest (n + 1) last
  | PollStep.arrive ok res :: rest, n + 1, _ =>
      transcribeWait eU eP finalInterrupt rest n (some (ok, res))

/-- `AudioToTextRecorder.transcribe`: if no request is in flight
(`transcribe_count == 0`) the official request is sent (count becomes 1),
then the wait loop runs against the observed pipe activity. -/
def transcribeCall (eU eP : Bool) (transcribeCount : ℕ) (steps : List PollStep)
    (finalInterrupt : Bool) : TranscribeOutcome :=
  transcribeWait eU eP finalInterrupt steps
    (if transcribeCount = 0 then transcribeCount + 1 else transcribeCount) none

/-- The gate in `text` after `wait_audio` returns: when shut down or when the
interrupt flag is set, `text` returns the empty string without dispatching
`transcribe`. -/
def textAfterWaitAudio (isShutDown interruptSet : Bool)
    (transcribeResult : TranscribeOutcome) : TranscribeOutcome :=
  if isShutDown || interruptSet then TranscribeOutcome.returnedEmptyInterrupted
  else transcribeResult


/-! ## Claim theorems -/

lemma getLast?_drop_of_lt {α : Type} (q : List α) (n : ℕ) (h : n < q.length) :
    (q.drop n).getLast? = q.getLast? := by
  conv_rhs => rw [← List.take_append_drop n q]
  rw [List.getLast?_append_of_ne_nil]
  intro hnil
  rw [List.drop_eq_nil_iff] at hnil
  omega

/-- C2 (amended part): for any configuration, feeding `fs` frames into the
initially empty pre-roll buffer leaves exactly the `min fs.length capacity`
most recent frames, in arrival order, where the capacity is the one computed
by `__init__` (`int((sample_rate // buffer_size) * pre_recording_buffer_duration)`);
the buffer length never exceeds that capacity. -/
theorem c2_preroll_holds_most_recent (sr bs : ℕ) (d : ℚ) (fs : List Frame) :
    feedFrames (audioBufferCapacity sr bs d) fs
        = fs.drop (fs.length - audioBufferCapacity sr bs d) ∧
      (feedFrames (audioBufferCapacity sr bs d) fs).length
        = min fs.length (audioBufferCapacity sr bs d) ∧
      (feedFrames (audioBufferCapacity sr bs d) fs).length
        ≤ audioBufferCapacity sr bs d := by
  refine ⟨feedFrames_eq_drop _ _, feedFrames_length _ _, ?_⟩
  rw [feedFrames_length]
  omega

/-- C2 (counterexample): at the default configuration (sample rate 16000,
frame size 512, pre-roll duration 1.0 s) the code's capacity is
`int((16000 // 512) * 1.0) = 31`, not `⌈(16000 / 512) × 1.0⌉ = 32` as the claim
states, and after feeding 32 frames the buffer holds 31 of them, not
`min (32, 32) = 32`. -/
theorem c2_capacity_formula_counterexample :
    audioBufferCapacity 16000 512 1 = 31 ∧
      specCeilCapacity 16000 512 1 = 32 ∧
      (feedFrames (audioBufferCapacity 16000 512 1)
          ((List.range 32).map (fun i => [(i : ℤ)]))).length
        ≠ min ((List.range 32).map (fun i => [(i : ℤ)])).length
            (specCeilCapacity 16000 512 1) := by
  have hcap : audioBufferCapacity 16000 512 1 = 31 := by
    unfold audioBufferCapacity
    norm_num
    decide
  have hceil : specCeilCapacity 16000 512 1 = 32 := by
    unfold specCeilCapacity
    have hq : ((16000 : ℕ) : ℚ) / ((512 : ℕ) : ℚ) * 1 = 125 / 4 := by
      norm_num
    rw [hq]
    have hc : (Int.ceil ((125 : ℚ) / 4)) = 32 := by
      rw [Int.ceil_eq_iff]
      norm_num
    rw [hc]
    decide
  refine ⟨hcap, hceil, ?_⟩
  have hlen : ((List.range 32).map (fun i => ([(i : ℤ)] : Frame))).length = 32 := by
    decide
  rw [feedFrames_length, hcap, hceil, hlen]
  decide

/-- C4: evaluating the wake-word trim loop at a trim count of 3 samples against
two captured 4-sample frames: because the partial-frame branch fails to clear
`wakeword_samples_to_remove` (it zeroes the dead local `samples_to_remove`
instead), the loop keeps consuming and removes all 8 samples, where stripping
exactly the wake word requires removing only 3 (at most the 4 of the frame the
count ends inside). -/
theorem c4_wakeword_trim_failing_input :
    wakewordTrim 3 [[1, 2, 3, 4], [5, 6, 7, 8]] = [] ∧
      (([[1, 2, 3, 4], [5, 6, 7, 8]] : List Frame).map List.length).sum = 8 := by
  constructor
  · simp [wakewordTrim]
  · simp

/-- C5: (a) with early transcription disabled, every reachable value of
`transcribe_count` is 0 or 1; (b) under any interleaving of the counter actions
the count never becomes negative; (c) with early transcription enabled the
count can transiently reach 2 (official request in flight plus a speculative
dispatch). -/
theorem c5_transcribe_count_invariant :
    (∀ s : CounterState, CounterReach false s →
        s.transcribeCount = 0 ∨ s.transcribeCount = 1) ∧
      (∀ (e : Bool) (s : CounterState), CounterReach e s → 0 ≤ s.transcribeCount) ∧
      (∃ s : CounterState, CounterReach true s ∧ s.transcribeCount = 2) := by
  refine ⟨?_, ?_, ?_⟩
  · intro s hs
    have h1 := counterReach_nonneg hs
    have h2 := counterReach_le_one hs
    omega
  · intro e s hs
    exact counterReach_nonneg hs
  · refine ⟨⟨2, false⟩, ?_, rfl⟩
    have h0 : CounterReach true (⟨0, true⟩ : CounterState) := CounterReach.init
    have h1 : CounterReach true ⟨1, true⟩ := by
      have := CounterReach.step h0 (CounterStep.send ⟨0, true⟩ rfl)
      simpa using this
    have h2 := CounterReach.step h1 (CounterStep.earlyDispatch ⟨1, true⟩ rfl rfl)
    simpa using h2

/-- C5 witness: the invariant applied at the concrete reachable state after one
`send` action (count 1). -/
theorem c5_transcribe_count_invariant_witness :
    (CounterState.mk 1 true).transcribeCount = 0 ∨
      (CounterState.mk 1 true).transcribeCount = 1 := by
  apply c5_transcribe_count_invariant.1 ⟨1, true⟩
  have h0 : CounterReach false (⟨0, true⟩ : CounterState) := CounterReach.init
  have := CounterReach.step h0 (CounterStep.send ⟨0, true⟩ rfl)
  simpa using this

/-- C6 (amended part): with overflow handling enabled and a latency limit of at
least 1, whenever the queue depth exceeds the limit the drain removes frames
from the oldest end exactly until the depth is at most the limit, a warning is
logged exactly when the limit was exceeded, and the most recently enqueued
frame is always retained. -/
theorem c6_overflow_drops_oldest (lim : ℕ) (q : List Frame) (hlim : 1 ≤ lim) :
    (handleOverflow true lim q).1 = q.drop (q.length - lim) ∧
      (handleOverflow true lim q).1.length ≤ lim ∧
      ((handleOverflow true lim q).2 = true ↔ lim < q.length) ∧
      (handleOverflow true lim q).1.getLast? = q.getLast? := by
  have hdrop : (handleOverflow true lim q).1 = q.drop (q.length - lim) := by
    simp [handleOverflow, drainOldest_eq_drop]
  refine ⟨hdrop, ?_, by simp [handleOverflow], ?_⟩
  · rw [hdrop, List.length_drop]
    omega
  · rw [hdrop]
    rcases Nat.eq_zero_or_pos q.length with h0 | h0
    · rw [List.length_eq_zero] at h0
      simp [h0]
    · exact getLast?_drop_of_lt _ _ (by omega)

/-- C6 witness: the amended property at limit 100 (the default
`ALLOWED_LATENCY_LIMIT`) and a queue of depth 101. -/
theorem c6_overflow_drops_oldest_witness :
    (handleOverflow true 100 ((List.range 101).map (fun i => [(i : ℤ)]))).1
        = ((List.range 101).map (fun i => [(i : ℤ)])).drop
            (((List.range 101).map (fun i => [(i : ℤ)])).length - 100) ∧
      (handleOverflow true 100 ((List.range 101).map (fun i => [(i : ℤ)]))).1.length ≤ 100 ∧
      ((handleOverflow true 100 ((List.range 101).map (fun i => [(i : ℤ)]))).2 = true ↔
        100 < ((List.range 101).map (fun i => [(i : ℤ)])).length) ∧
      (handleOverflow true 100 ((List.range 101).map (fun i => [(i : ℤ)]))).1.getLast?
        = ((List.range 101).map (fun i => [(i : ℤ)])).getLast? :=
  c6_overflow_drops_oldest 100 _ (by norm_num)

/-- C6 (counterexample): with a configured latency limit of 0 and one frame in
the queue the depth (1) exceeds the limit, and the drain discards everything —
including the most recently enqueued frame, contradicting the claim's "the most
recently enqueued frame is never among those discarded". -/
theorem c6_limit_zero_counterexample :
    0 < ([[(1 : ℤ)]] : List Frame).length ∧
      (handleOverflow true 0 [[(1 : ℤ)]]).1 = [] ∧
      [(1 : ℤ)] ∉ (handleOverflow true 0 [[(1 : ℤ)]]).1 := by
  refine ⟨by simp, ?_, ?_⟩ <;> simp [handleOverflow, drainOldest]

/-- C7 (amended part): for NumPy-array chunks (mono or stereo) at any source
rate, and for raw int16 byte chunks already at the canonical 16000 Hz,
`feed_audio` applies exactly the preprocessing of the capture worker's
`preprocess_audio` targeting 16000 Hz, so both paths yield byte-identical frame
data; the two functions are parametric in the shared `scipy.signal.resample`. -/
theorem c7_feed_audio_matches_worker (rs : ResampleFn) (orig : ℕ) :
    (∀ xs, feedAudioPreprocess rs orig (AudioChunk.mono xs)
        = preprocessAudio rs orig 16000 (AudioChunk.mono xs)) ∧
      (∀ xs, feedAudioPreprocess rs orig (AudioChunk.stereo xs)
        = preprocessAudio rs orig 16000 (AudioChunk.stereo xs)) ∧
      (∀ bs, feedAudioPreprocess rs 16000 (AudioChunk.rawBytes bs)
        = preprocessAudio rs 16000 16000 (AudioChunk.rawBytes bs)) := by
  refine ⟨fun xs => rfl, fun xs => rfl, fun bs => ?_⟩
  simp [feedAudioPreprocess, preprocessAudio]

/-- C7 (counterexample): a raw int16 byte chunk at a source rate of 8000 Hz is
resampled (to twice the length) by the capture worker's `preprocess_audio` but
passed through unchanged by `feed_audio`, so the two paths do not produce
byte-identical frame data. -/
theorem c7_bytes_not_resampled_counterexample :
    feedAudioPreprocess resampleModel 8000 (AudioChunk.rawBytes [1000, 2000])
        = [1000, 2000] ∧
      (preprocessAudio resampleModel 8000 16000 (AudioChunk.rawBytes [1000, 2000])).length
        = 4 ∧
      feedAudioPreprocess resampleModel 8000 (AudioChunk.rawBytes [1000, 2000])
        ≠ preprocessAudio resampleModel 8000 16000 (AudioChunk.rawBytes [1000, 2000]) := by
  refine ⟨rfl, ?_, ?_⟩
  · simp [preprocessAudio, resampleModel, astypeInt16]
  · intro h
    have := congrArg List.length h
    simp [preprocessAudio, feedAudioPreprocess, resampleModel, astypeInt16] at this

/-- C9: calling `shutdown` a second (or any subsequent) time after it has run
once is a no-op — the state is unchanged and no teardown effect is performed
again, so the teardown effects of any number `n + 1` of consecutive calls are
exactly those of the first call. -/
theorem c9_shutdown_idempotent :
    (∀ s : ShutState, shutdown (shutdown s).1 = ((shutdown s).1, [])) ∧
      (∀ (s : ShutState) (n : ℕ), shutdownTimes (n + 1) s = ((shutdown s).1, (shutdown s).2)) := by
  constructor
  · intro s
    exact shutdown_of_isShutDown _ (shutdown_isShutDown s)
  · intro s n
    have h := shutdownTimes_of_isShutDown n (shutdown s).1 (shutdown_isShutDown s)
    simp [shutdownTimes, h]


/-- The normalized float stream of the captured utterance as `wait_audio` sees
it (`full_audio`): the joined int16 samples of `frames` (or `last_frames` when
`frames` is empty) divided by `INT16_MAX_ABS_VALUE`. -/
def capturedAudio (framesIn lastFrames : List Frame) : List ℚ :=
  (joinedSamples (if framesIn.isEmpty then lastFrames else framesIn)).map int16ToFloat

lemma waitAudioFinalize_audio_eq (sampleRate : ℕ) (framesIn lastFrames : List Frame)
    (b r : ℚ)
    (hnL : (pyInt ((sampleRate : ℚ) * b)).toNat
      < (capturedAudio framesIn lastFrames).length) :
    (waitAudioFinalize sampleRate framesIn lastFrames b r).audio
      = (capturedAudio framesIn lastFrames).take
          ((capturedAudio framesIn lastFrames).length
            - (pyInt ((sampleRate : ℚ) * b)).toNat) := by
  by_cases hn0 : 0 < (pyInt ((sampleRate : ℚ) * b)).toNat
  · simp only [waitAudioFinalize, capturedAudio] at hnL ⊢
    rw [if_pos hn0, if_pos hnL]
  · have hz : (pyInt ((sampleRate : ℚ) * b)).toNat = 0 := by omega
    simp only [waitAudioFinalize, capturedAudio, hz] at hnL ⊢
    simp

/-- C3: finalizing an utterance whose captured float stream has `L` samples
(duration `D = L / sample_rate` seconds) with `backdate_stop_seconds = b`,
`0 < b < D`, retains exactly the first `L - int(sample_rate * b)` captured
samples — a prefix whose length is within one sample (a fortiori one frame) of
`(D - b) * sample_rate` — and resets both backdate offsets to zero immediately. -/
theorem c3_backdate_stop_correct (sampleRate : ℕ) (framesIn lastFrames : List Frame)
    (b r : ℚ) (hrate : 0 < sampleRate) (hb : 0 < b)
    (hbD : b < ((capturedAudio framesIn lastFrames).length : ℚ) / (sampleRate : ℚ)) :
    (waitAudioFinalize sampleRate framesIn lastFrames b r).audio
        = (capturedAudio framesIn lastFrames).take
            ((capturedAudio framesIn lastFrames).length
              - (pyInt ((sampleRate : ℚ) * b)).toNat) ∧
      ((capturedAudio framesIn lastFrames).length : ℚ) - (sampleRate : ℚ) * b
        ≤ ((waitAudioFinalize sampleRate framesIn lastFrames b r).audio.length : ℚ) ∧
      ((waitAudioFinalize sampleRate framesIn lastFrames b r).audio.length : ℚ)
        < ((capturedAudio framesIn lastFrames).length : ℚ) - (sampleRate : ℚ) * b + 1 ∧
      (waitAudioFinalize sampleRate framesIn lastFrames b r).backdateStopSeconds = 0 ∧
      (waitAudioFinalize sampleRate framesIn lastFrames b r).backdateResumeSeconds = 0 := by
  have hr : (0 : ℚ) < (sampleRate : ℚ) := by exact_mod_cast hrate
  have hx0 : (0 : ℚ) ≤ (sampleRate : ℚ) * b := by positivity
  have hpy : pyInt ((sampleRate : ℚ) * b) = Int.floor ((sampleRate : ℚ) * b) := by
    simp [pyInt, hx0]
  have hfl0 : 0 ≤ Int.floor ((sampleRate : ℚ) * b) := Int.floor_nonneg.mpr hx0
  have hxL : (sampleRate : ℚ) * b < ((capturedAudio framesIn lastFrames).length : ℚ) := by
    have h1 := (lt_div_iff₀ hr).mp hbD
    linarith
  have hnL : (pyInt ((sampleRate : ℚ) * b)).toNat
      < (capturedAudio framesIn lastFrames).length := by
    rw [hpy]
    have hlt : Int.floor ((sampleRate : ℚ) * b)
        < ((capturedAudio framesIn lastFrames).length : ℤ) := by
      rw [Int.floor_lt]
      exact_mod_cast hxL
    omega
  have hcast : (((pyInt ((sampleRate : ℚ) * b)).toNat : ℕ) : ℚ)
      = ((Int.floor ((sampleRate : ℚ) * b) : ℤ) : ℚ) := by
    rw [hpy]
    exact_mod_cast congrArg (fun z : ℤ => (z : ℚ)) (Int.toNat_of_nonneg hfl0)
  have hnle : (((pyInt ((sampleRate : ℚ) * b)).toNat : ℕ) : ℚ) ≤ (sampleRate : ℚ) * b := by
    rw [hcast]
    exact Int.floor_le _
  have hngt : (sampleRate : ℚ) * b
      < (((pyInt ((sampleRate : ℚ) * b)).toNat : ℕ) : ℚ) + 1 := by
    rw [hcast]
    exact Int.lt_floor_add_one _
  have haudio := waitAudioFinalize_audio_eq sampleRate framesIn lastFrames b r hnL
  have hlen : (waitAudioFinalize sampleRate framesIn lastFrames b r).audio.length
      = (capturedAudio framesIn lastFrames).length
        - (pyInt ((sampleRate : ℚ) * b)).toNat := by
    rw [haudio, List.length_take]
    omega
  have hlenq : ((waitAudioFinalize sampleRate framesIn lastFrames b r).audio.length : ℚ)
      = ((capturedAudio framesIn lastFrames).length : ℚ)
        - (((pyInt ((sampleRate : ℚ) * b)).toNat : ℕ) : ℚ) := by
    rw [hlen, Nat.cast_sub (le_of_lt hnL)]
  refine ⟨haudio, ?_, ?_, rfl, rfl⟩
  · rw [hlenq]
    linarith
  · rw [hlenq]
    linarith

/-- C3 witness: a 2-second utterance at 4 Hz (8 samples in two 4-sample frames)
backdated by 1 second keeps exactly the first 4 samples and zeroes the offsets. -/
theorem c3_backdate_stop_correct_witness :
    (waitAudioFinalize 4 [[100, 200, 300, 400], [500, 600, 700, 800]] [] 1 0).audio
        = (capturedAudio [[100, 200, 300, 400], [500, 600, 700, 800]] []).take
            ((capturedAudio [[100, 200, 300, 400], [500, 600, 700, 800]] []).length
              - (pyInt ((4 : ℕ) * (1 : ℚ))).toNat) ∧
      ((capturedAudio [[100, 200, 300, 400], [500, 600, 700, 800]] []).length : ℚ)
          - ((4 : ℕ) : ℚ) * 1
        ≤ ((waitAudioFinalize 4 [[100, 200, 300, 400], [500, 600, 700, 800]] [] 1 0).audio.length : ℚ) ∧
      ((waitAudioFinalize 4 [[100, 200, 300, 400], [500, 600, 700, 800]] [] 1 0).audio.length : ℚ)
        < ((capturedAudio [[100, 200, 300, 400], [500, 600, 700, 800]] []).length : ℚ)
            - ((4 : ℕ) : ℚ) * 1 + 1 ∧
      (waitAudioFinalize 4 [[100, 200, 300, 400], [500, 600, 700, 800]] [] 1 0).backdateStopSeconds = 0 ∧
      (waitAudioFinalize 4 [[100, 200, 300, 400], [500, 600, 700, 800]] [] 1 0).backdateResumeSeconds = 0 :=
  c3_backdate_stop_correct 4 [[100, 200, 300, 400], [500, 600, 700, 800]] [] 1 0
    (by norm_num) (by norm_num)
    (by norm_num [capturedAudio, joinedSamples])


lemma transcribeWait_skip_timeouts (eU eP fi : Bool) (pre steps : List PollStep)
    (n : ℕ) (last : Option (Bool × List Char))
    (hpre : ∀ s ∈ pre, s = PollStep.timeout false) :
    transcribeWait eU eP fi (pre ++ steps) (n + 1) last
      = transcribeWait eU eP fi steps (n + 1) last := by
  induction pre with
  | nil => rfl
  | cons a pre ih =>
      have ha : a = PollStep.timeout false := hpre a (List.mem_cons_self a pre)
      subst ha
      rw [List.cons_append]
      rw [show transcribeWait eU eP fi (PollStep.timeout false :: (pre ++ steps)) (n + 1) last
          = transcribeWait eU eP fi (pre ++ steps) (n + 1) last by simp [transcribeWait]]
      exact ih (fun s hs => hpre s (List.mem_cons_of_mem _ hs))

/-- C8: (a) if the interrupt flag is observed at a poll timeout while a result
is pending, `transcribe` returns the empty string (it neither raises nor keeps
blocking); (b) a failure result is raised as an explicit error carrying the
reason; (c) the interrupted-empty outcome is distinct from a raised failure;
(d) if the interrupt flag is set before `text` dispatches the transcription, it
returns the empty string without dispatching. -/
theorem c8_interrupt_empty_vs_failure :
    (∀ (eU eP fi : Bool) (c0 : ℕ) (pre rest : List PollStep),
        (∀ s ∈ pre, s = PollStep.timeout false) →
        transcribeCall eU eP c0 (pre ++ PollStep.timeout true :: rest) fi
          = TranscribeOutcome.returnedEmptyInterrupted) ∧
      (∀ (eU eP fi : Bool) (reason : List Char) (rest : List PollStep),
        transcribeCall eU eP 0 (PollStep.arrive false reason :: rest) fi
          = TranscribeOutcome.raisedError reason) ∧
      (∀ reason : List Char,
        TranscribeOutcome.raisedError reason ≠ TranscribeOutcome.returnedEmptyInterrupted) ∧
      (∀ out : TranscribeOutcome,
        textAfterWaitAudio false true out = TranscribeOutcome.returnedEmptyInterrupted) := by
  refine ⟨?_, ?_, ?_, ?_⟩
  · intro eU eP fi c0 pre rest hpre
    unfold transcribeCall
    rcases c0 with _ | k
    · rw [if_pos rfl, transcribeWait_skip_timeouts eU eP fi pre _ 0 none hpre]
      simp [transcribeWait]
    · rw [if_neg (Nat.succ_ne_zero k), transcribeWait_skip_timeouts eU eP fi pre _ k none hpre]
      simp [transcribeWait]
  · intro eU eP fi reason rest
    simp [transcribeCall, transcribeWait]
  · intro reason
    simp
  · intro out
    rfl

/-- C8 witness: one clean poll timeout, then a timeout with the interrupt flag
set, yields the interrupted empty return. -/
theorem c8_interrupt_empty_vs_failure_witness :
    transcribeCall false false 0
        ([PollStep.timeout false] ++ PollStep.timeout true :: []) false
      = TranscribeOutcome.returnedEmptyInterrupted :=
  c8_interrupt_empty_vs_failure.1 false false false 0 [PollStep.timeout false] []
    (by
      intro s hs
      simp only [List.mem_singleton] at hs
      exact hs)


/-! ### Equivalence of `_preprocess_output` with the words-joined normal form -/

/-- The head, if any, is not whitespace. -/
def headNotSpace (l : List Char) : Prop :=
  ∀ c, l.head? = some c → isPySpace c = false

/-- The last character, if any, is not whitespace. -/
def noTrailSpace (l : List Char) : Prop :=
  ∀ c, l.getLast? = some c → isPySpace c = false

lemma getLast?_cons_of_ne_nil (a : Char) (t : List Char) (ht : t ≠ []) :
    (a :: t).getLast? = t.getLast? := by
  have := List.getLast?_append_of_ne_nil [a] ht
  simpa using this

lemma lstrip_headNotSpace (l : List Char) : headNotSpace (lstrip l) := by
  induction l with
  | nil => intro c hc; simp [lstrip] at hc
  | cons a t ih =>
      by_cases ha : isPySpace a
      · intro c hc
        rw [lstrip, List.dropWhile_cons, if_pos ha] at hc
        exact ih c hc
      · intro c hc
        rw [lstrip, List.dropWhile_cons, if_neg ha] at hc
        simp only [List.head?_cons, Option.some.injEq] at hc
        subst hc
        simpa using ha

lemma rstrip_noTrailSpace (l : List Char) : noTrailSpace (rstrip l) := by
  induction l with
  | nil => intro c hc; simp [rstrip] at hc
  | cons a t ih =>
      intro c hc
      rw [rstrip] at hc
      cases hr : rstrip t with
      | nil =>
          rw [hr] at hc
          by_cases ha : isPySpace a
          · rw [if_pos ha] at hc
            simp at hc
          · rw [if_neg ha] at hc
            simp only [List.getLast?_singleton, Option.some.injEq] at hc
            subst hc
            simpa using ha
      | cons b r =>
          rw [hr] at hc
          rw [getLast?_cons_of_ne_nil a (b :: r) (by simp)] at hc
          exact ih c (by rw [hr]; exact hc)

lemma rstrip_headNotSpace (l : List Char) (h : headNotSpace l) :
    headNotSpace (rstrip l) := by
  cases l with
  | nil => intro c hc; simp [rstrip] at hc
  | cons a t =>
      intro c hc
      rw [rstrip] at hc
      have ha : isPySpace a = false := h a rfl
      cases hr : rstrip t with
      | nil =>
          rw [hr, if_neg (by simp [ha])] at hc
          simp only [List.head?_cons, Option.some.injEq] at hc
          subst hc
          exact ha
      | cons b r =>
          rw [hr] at hc
          simp only [List.head?_cons, Option.some.injEq] at hc
          subst hc
          exact ha

lemma dropWhile_head_not (p : Char → Bool) (l : List Char) (e : Char) (u : List Char)
    (h : l.dropWhile p = e :: u) : p e = false := by
  induction l with
  | nil => simp at h
  | cons a t ih =>
      rw [List.dropWhile_cons] at h
      by_cases ha : p a
      · rw [if_pos ha] at h
        exact ih h
      · rw [if_neg ha] at h
        simp only [List.cons.injEq] at h
        rw [← h.1]
        simpa using ha

lemma getLast?_dropWhile (p : Char → Bool) (l : List Char)
    (h : l.dropWhile p ≠ []) : (l.dropWhile p).getLast? = l.getLast? := by
  induction l with
  | nil => simp at h
  | cons a t ih =>
      rw [List.dropWhile_cons]
      by_cases ha : p a
      · rw [List.dropWhile_cons, if_pos ha] at h
        rw [if_pos ha, ih h]
        have ht : t ≠ [] := by
          intro he
          rw [he] at h
          simp at h
        rw [getLast?_cons_of_ne_nil a t ht]
      · rw [if_neg ha]

lemma noTrailSpace_cons (a : Char) (t : List Char) (ht : t ≠ [])
    (h : noTrailSpace (a :: t)) : noTrailSpace t := by
  intro c hc
  exact h c (by rw [getLast?_cons_of_ne_nil a t ht]; exact hc)

lemma wordsOf_dropWhile_space (l : List Char) :
    wordsOf (l.dropWhile isPySpace) = wordsOf l := by
  induction l with
  | nil => rfl
  | cons a t ih =>
      rw [List.dropWhile_cons]
      by_cases ha : isPySpace a
      · rw [if_pos ha, ih, wordsOf, if_pos ha]
      · rw [if_neg ha]

lemma joinWords_cons_cons (c : Char) (w : List Char) (ws : List (List Char)) :
    joinWords ((c :: w) :: ws) = c :: joinWords (w :: ws) := by
  cases ws with
  | nil => rfl
  | cons w2 ws => rfl

lemma subWsRuns_eq_joinWords (n : ℕ) :
    ∀ l : List Char, l.length ≤ n → headNotSpace l → noTrailSpace l →
      subWsRuns l = joinWords (wordsOf l) := by
  induction n with
  | zero =>
      intro l hl _ _
      have : l = [] := List.length_eq_zero.mp (Nat.le_zero.mp hl)
      subst this
      simp [subWsRuns, wordsOf, joinWords]
  | succ n ih =>
      intro l hl hhead htrail
      cases l with
      | nil => simp [subWsRuns, wordsOf, joinWords]
      | cons c t =>
          have hc : isPySpace c = false := hhead c rfl
          rw [subWsRuns, if_neg (by simp [hc])]
          cases t with
          | nil =>
              rw [wordsOf, if_neg (by simp [hc])]
              simp [subWsRuns, wordsOf, joinWords]
          | cons d t' =>
              by_cases hd : isPySpace d
              · -- word break: d is whitespace
                have ht' : t' ≠ [] := by
                  intro he
                  subst he
                  have := htrail d (by rw [getLast?_cons_of_ne_nil c [d] (by simp)]; rfl)
                  rw [this] at hd
                  exact Bool.noConfusion hd
                have hlast : (c :: d :: t').getLast? = t'.getLast? := by
                  rw [getLast?_cons_of_ne_nil c (d :: t') (by simp),
                    getLast?_cons_of_ne_nil d t' ht']
                have htrail' : noTrailSpace t' := by
                  intro x hx
                  exact htrail x (by rw [hlast]; exact hx)
                have hu : t'.dropWhile isPySpace ≠ [] := by
                  intro he
                  have hall := List.dropWhile_eq_nil_iff.mp he
                  obtain ⟨z, hz⟩ := Option.isSome_iff_exists.mp
                    (List.getLast?_isSome.mpr ht')
                  have hzmem : z ∈ t' := List.mem_of_mem_getLast? hz
                  have := htrail' z hz
                  rw [hall z hzmem] at this
                  exact Bool.noConfusion this
                obtain ⟨e, u', heu⟩ : ∃ e u', t'.dropWhile isPySpace = e :: u' := by
                  cases hu' : t'.dropWhile isPySpace with
                  | nil => exact absurd hu' hu
                  | cons e u' => exact ⟨e, u', rfl⟩
                have he : isPySpace e = false := dropWhile_head_not _ _ _ _ heu
                -- left side
                have hsub : subWsRuns (d :: t') = ' ' :: subWsRuns (t'.dropWhile isPySpace) := by
                  rw [subWsRuns, if_pos (by simp [hd])]
                -- right side
                have hw1 : wordsOf (c :: d :: t') = [c] :: wordsOf (d :: t') := by
                  rw [wordsOf, if_neg (by simp [hc])]
                  congr 1
                  · rw [List.takeWhile_cons, if_neg (by simp [hd])]
                  · rw [List.dropWhile_cons, if_neg (by simp [hd])]
                have hw2 : wordsOf (d :: t') = wordsOf (t'.dropWhile isPySpace) := by
                  rw [wordsOf, if_pos (by simp [hd]), ← wordsOf_dropWhile_space t']
                have hihu : subWsRuns (t'.dropWhile isPySpace)
                    = joinWords (wordsOf (t'.dropWhile isPySpace)) := by
                  apply ih
                  · have h1 := dropWhile_length_le isPySpace t'
                    simp only [List.length_cons] at hl
                    omega
                  · intro x hx
                    rw [heu] at hx
                    simp only [List.head?_cons, Option.some.injEq] at hx
                    subst hx
                    exact he
                  · intro x hx
                    rw [getLast?_dropWhile isPySpace t' hu] at hx
                    exact htrail' x hx
                have hwne : wordsOf (t'.dropWhile isPySpace) ≠ [] := by
                  rw [heu, wordsOf, if_neg (by simp [he])]
                  simp
                obtain ⟨w, ws, hws⟩ : ∃ w ws, wordsOf (t'.dropWhile isPySpace) = w :: ws := by
                  cases hw : wordsOf (t'.dropWhile isPySpace) with
                  | nil => exact absurd hw hwne
                  | cons w ws => exact ⟨w, ws, rfl⟩
                rw [hsub, hihu, hw1, hw2, hws]
                rfl
              · -- word continues: d is not whitespace
                have hw : wordsOf (c :: d :: t')
                    = (c :: d :: t'.takeWhile (fun x => !isPySpace x)) ::
                        wordsOf (t'.dropWhile (fun x => !isPySpace x)) := by
                  rw [wordsOf, if_neg (by simp [hc])]
                  congr 2
                  · rw [List.takeWhile_cons, if_pos (by simp [hd])]
                  · rw [List.dropWhile_cons, if_pos (by simp [hd])]
                have hw' : wordsOf (d :: t')
                    = (d :: t'.takeWhile (fun x => !isPySpace x)) ::
                        wordsOf (t'.dropWhile (fun x => !isPySpace x)) := by
                  rw [wordsOf, if_neg (by simp [hd])]
                have hih : subWsRuns (d :: t') = joinWords (wordsOf (d :: t')) := by
                  apply ih
                  · simp only [List.length_cons] at hl ⊢
                    omega
                  · intro x hx
                    simp only [List.head?_cons, Option.some.injEq] at hx
                    subst hx
                    simpa using hd
                  · exact noTrailSpace_cons c (d :: t') (by simp) htrail
                rw [hw, joinWords_cons_cons, ← hw', hih]

/-- `_preprocess_output` in non-preview mode produces exactly the words-joined
normal form with the same flag handling. -/
lemma preprocessOutput_eq_specNormalize (eU eP : Bool) (raw : List Char) :
    preprocessOutput eU eP false raw = specNormalize eU eP raw := by
  unfold preprocessOutput specNormalize
  rw [subWsRuns_eq_joinWords (rstrip (lstrip raw)).length (rstrip (lstrip raw)) le_rfl
    (rstrip_headNotSpace _ (lstrip_headNotSpace raw)) (rstrip_noTrailSpace _)]
  simp


/-- C10: a successful, non-interrupted `transcribe` run (clean poll timeouts,
then one `('success', result)` message, interrupt flag never set) returns the
model output normalized exactly as the claim states: stripped, internal
whitespace runs collapsed to single spaces (its words joined by single spaces),
first character uppercased when `ensure_sentence_starting_uppercase`, and a
final '.' appended when `ensure_sentence_ends_with_period` and the last
character is alphanumeric. -/
theorem c10_transcribe_output_normalized (eU eP : Bool) (raw : List Char)
    (pre : List PollStep) (hpre : ∀ s ∈ pre, s = PollStep.timeout false) :
    transcribeCall eU eP 0 (pre ++ [PollStep.arrive true raw]) false
      = TranscribeOutcome.success (specNormalize eU eP raw) := by
  unfold transcribeCall
  rw [if_pos rfl, transcribeWait_skip_timeouts eU eP false pre _ 0 none hpre]
  rw [show transcribeWait eU eP false [PollStep.arrive true raw] (0 + 1) none
      = TranscribeOutcome.success (preprocessOutput eU eP false raw) by
    simp [transcribeWait]]
  rw [preprocessOutput_eq_specNormalize]

/-- C10 witness: the theorem applied to the raw model output
`"  hello   world "` with both flags on and no wait iterations. -/
theorem c10_transcribe_output_normalized_witness :
    transcribeCall true true 0
        ([] ++ [PollStep.arrive true ("  hello   world ".toList)]) false
      = TranscribeOutcome.success (specNormalize true true ("  hello   world ".toList)) :=
  c10_transcribe_output_normalized true true ("  hello   world ".toList) []
    (by intro s hs; simp at hs)


/-! ### Silence-triggered stop (recording branch) -/

lemma silenceFrameUpdate_of_ne (cfg : RecCfg) (t : ℚ) (st : RecState)
    (h : st.speechEndSilenceStart ≠ 0) :
    silenceFrameUpdate cfg t st = st ∨
      silenceFrameUpdate cfg t st
        = { st with
            transcribeCount := st.transcribeCount + 1
            allowedToEarlyTranscribe := false } := by
  unfold silenceFrameUpdate
  have hc : ¬(st.speechEndSilenceStart = 0 ∧
      t - st.recordingStartTime > cfg.minLengthOfRecording) := fun hx => h hx.1
  rw [if_neg hc]
  by_cases h2 : st.speechEndSilenceStart ≠ 0 ∧ cfg.earlyTranscriptionOnSilence ≠ 0 ∧
      st.frames ≠ [] ∧ t - st.speechEndSilenceStart > cfg.earlyTranscriptionOnSilence ∧
      st.allowedToEarlyTranscribe = true
  · right
    rw [if_pos h2]
  · left
    rw [if_neg h2]

lemma silenceFrameUpdate_start (cfg : RecCfg) (t : ℚ) (st : RecState)
    (h0 : st.speechEndSilenceStart = 0)
    (hmin : t - st.recordingStartTime > cfg.minLengthOfRecording) :
    silenceFrameUpdate cfg t st = { st with speechEndSilenceStart := t } ∨
      silenceFrameUpdate cfg t st
        = { st with
            speechEndSilenceStart := t
            transcribeCount := st.transcribeCount + 1
            allowedToEarlyTranscribe := false } := by
  unfold silenceFrameUpdate
  have hc : st.speechEndSilenceStart = 0 ∧
      t - st.recordingStartTime > cfg.minLengthOfRecording := ⟨h0, hmin⟩
  rw [if_pos hc]
  by_cases h2 : ({ st with speechEndSilenceStart := t } : RecState).speechEndSilenceStart ≠ 0 ∧
      cfg.earlyTranscriptionOnSilence ≠ 0 ∧
      ({ st with speechEndSilenceStart := t } : RecState).frames ≠ [] ∧
      t - ({ st with speechEndSilenceStart := t } : RecState).speechEndSilenceStart
        > cfg.earlyTranscriptionOnSilence ∧
      ({ st with speechEndSilenceStart := t } : RecState).allowedToEarlyTranscribe = true
  · right
    rw [if_pos h2]
  · left
    rw [if_neg h2]

/-- A non-speech frame arriving while the silence timer is running but the
threshold is not yet reached: recording continues, the timer keeps its start
value, and the frame joins the open utterance. -/
lemma recordingFrameStep_silence_mid (cfg : RecCfg) (st : RecState) (t0 t : ℚ)
    (d : Frame)
    (hrec : st.isRecording = true)
    (harm : st.stopRecordingOnVoiceDeactivity = true)
    (hsil : st.speechEndSilenceStart = t0)
    (ht0 : t0 ≠ 0)
    (hlt : t - t0 < cfg.postSpeechSilenceDuration) :
    (recordingFrameStep cfg st t false d).isRecording = true ∧
      (recordingFrameStep cfg st t false d).stopRecordingOnVoiceDeactivity = true ∧
      (recordingFrameStep cfg st t false d).speechEndSilenceStart = t0 ∧
      (recordingFrameStep cfg st t false d).recordingStartTime = st.recordingStartTime ∧
      (recordingFrameStep cfg st t false d).frames = st.frames ++ [d] ∧
      (recordingFrameStep cfg st t false d).wasRecordingPrev = true := by
  unfold recordingFrameStep deactivityBlock
  rw [if_pos harm, if_pos (by simp)]
  rcases silenceFrameUpdate_of_ne cfg t st (hsil ▸ ht0) with hb | hb <;>
    rw [hb] <;>
    · unfold silenceStopCheck
      rw [if_neg (by
        simp only [hsil]
        intro hx
        exact absurd hx.2 (not_le.mpr hlt))]
      unfold loopTail
      simp [hrec, harm, hsil, ht0]

/-- The first non-speech frame after speech (timer not yet running), arriving
once the recording is older than `min_length_of_recording`: the silence timer
starts at the frame's arrival time and recording continues (assuming a positive
silence threshold). -/
lemma recordingFrameStep_silence_first (cfg : RecCfg) (st : RecState) (t0 : ℚ)
    (d : Frame)
    (hrec : st.isRecording = true)
    (harm : st.stopRecordingOnVoiceDeactivity = true)
    (h0 : st.speechEndSilenceStart = 0)
    (ht0 : t0 ≠ 0)
    (hmin : t0 - st.recordingStartTime > cfg.minLengthOfRecording)
    (hD : 0 < cfg.postSpeechSilenceDuration) :
    (recordingFrameStep cfg st t0 false d).isRecording = true ∧
      (recordingFrameStep cfg st t0 false d).stopRecordingOnVoiceDeactivity = true ∧
      (recordingFrameStep cfg st t0 false d).speechEndSilenceStart = t0 ∧
      (recordingFrameStep cfg st t0 false d).recordingStartTime = st.recordingStartTime ∧
      (recordingFrameStep cfg st t0 false d).frames = st.frames ++ [d] ∧
      (recordingFrameStep cfg st t0 false d).wasRecordingPrev = true := by
  unfold recordingFrameStep deactivityBlock
  rw [if_pos harm, if_pos (by simp)]
  rcases silenceFrameUpdate_start cfg t0 st h0 hmin with hb | hb <;>
    rw [hb] <;>
    · unfold silenceStopCheck
      rw [if_neg (by
        simp only []
        intro hx
        have := hx.2
        simp only [RecState.speechEndSilenceStart] at this
        exact absurd (by simpa using this) (not_le.mpr (by linarith)))]
      unfold loopTail
      simp [hrec, harm, ht0]

/-- A non-speech frame arriving once the running silence timer has reached
`post_speech_silence_duration` (and the recording is old enough for `stop` to
go through): the frame is appended, `stop` fires — the utterance is captured in
`last_frames`, the stop event is set, the recording state is left, the
deactivity trigger is disarmed and the silence timer is cleared. -/
lemma recordingFrameStep_silence_stop (cfg : RecCfg) (st : RecState) (t0 t : ℚ)
    (d : Frame)
    (hrec : st.isRecording = true)
    (harm : st.stopRecordingOnVoiceDeactivity = true)
    (hsil : st.speechEndSilenceStart = t0)
    (ht0 : t0 ≠ 0)
    (hge : t - t0 ≥ cfg.postSpeechSilenceDuration)
    (hminlen : ¬(t - st.recordingStartTime < cfg.minLengthOfRecording))
    (hwas : st.wasRecordingPrev = true) :
    (recordingFrameStep cfg st t false d).isRecording = false ∧
      (recordingFrameStep cfg st t false d).stopRecordingEvent = true ∧
      (recordingFrameStep cfg st t false d).stopRecordingOnVoiceDeactivity = false ∧
      (recordingFrameStep cfg st t false d).lastFrames = st.frames ++ [d] ∧
      (recordingFrameStep cfg st t false d).speechEndSilenceStart = 0 := by
  unfold recordingFrameStep deactivityBlock
  rw [if_pos harm, if_pos (by simp)]
  rcases silenceFrameUpdate_of_ne cfg t st (hsil ▸ ht0) with hb | hb <;>
    rw [hb] <;>
    · unfold silenceStopCheck stopRec
      rw [if_pos (by simp only [hsil]; exact ⟨ht0, hge⟩)]
      dsimp only
      rw [if_neg hminlen]
      dsimp only
      unfold loopTail
      simp [hwas]

/-- Processing any run of sub-threshold non-speech frames preserves the
running-silence configuration and appends the frames in order. -/
lemma runRecording_silence_hold (cfg : RecCfg) (t0 : ℚ) (ht0 : t0 ≠ 0) :
    ∀ (mid : List (ℚ × Frame)) (st : RecState),
      st.isRecording = true →
      st.stopRecordingOnVoiceDeactivity = true →
      st.speechEndSilenceStart = t0 →
      st.wasRecordingPrev = true →
      (∀ p ∈ mid, p.1 - t0 < cfg.postSpeechSilenceDuration) →
      (runRecording cfg st (mid.map (fun p => (p.1, false, p.2)))).isRecording = true ∧
        (runRecording cfg st (mid.map (fun p => (p.1, false, p.2)))).stopRecordingOnVoiceDeactivity = true ∧
        (runRecording cfg st (mid.map (fun p => (p.1, false, p.2)))).speechEndSilenceStart = t0 ∧
        (runRecording cfg st (mid.map (fun p => (p.1, false, p.2)))).recordingStartTime
          = st.recordingStartTime ∧
        (runRecording cfg st (mid.map (fun p => (p.1, false, p.2)))).frames
          = st.frames ++ mid.map Prod.snd ∧
        (runRecording cfg st (mid.map (fun p => (p.1, false, p.2)))).wasRecordingPrev = true := by
  intro mid
  induction mid with
  | nil =>
      intro st h1 h2 h3 h4 _
      simp [runRecording, h1, h2, h3, h4]
  | cons p mid ih =>
      intro st h1 h2 h3 h4 hmid
      have hstep := recordingFrameStep_silence_mid cfg st t0 p.1 p.2 h1 h2 h3 ht0
        (hmid p (List.mem_cons_self p mid))
      have hrest := ih (recordingFrameStep cfg st p.1 false p.2)
        hstep.1 hstep.2.1 hstep.2.2.1 hstep.2.2.2.2.2
        (fun q hq => hmid q (List.mem_cons_of_mem p hq))
      simp only [List.map_cons, runRecording, List.foldl_cons] at hrest ⊢
      refine ⟨hrest.1, hrest.2.1, hrest.2.2.1, ?_, ?_, hrest.2.2.2.2.2⟩
      · rw [hrest.2.2.2.1, hstep.2.2.2.1]
      · rw [hrest.2.2.2.2.1, hstep.2.2.2.2.1]
        simp


/-- A speech-classified frame processed while recording with the deactivity
trigger armed: recording continues and the silence timer is cleared. -/
lemma recordingFrameStep_speech (cfg : RecCfg) (st : RecState) (t : ℚ) (d : Frame)
    (hrec : st.isRecording = true)
    (harm : st.stopRecordingOnVoiceDeactivity = true) :
    (recordingFrameStep cfg st t true d).isRecording = true ∧
      (recordingFrameStep cfg st t true d).speechEndSilenceStart = 0 ∧
      (recordingFrameStep cfg st t true d).frames = st.frames ++ [d] := by
  unfold recordingFrameStep deactivityBlock speechFrameUpdate
  rw [if_pos harm, if_neg (by simp)]
  by_cases hs : st.speechEndSilenceStart ≠ 0
  · rw [if_pos hs]
    unfold silenceStopCheck
    rw [if_neg (by
      dsimp only
      intro hx
      exact hx.1 rfl)]
    unfold loopTail
    simp [hrec, harm]
  · rw [if_neg hs]
    have hs0 : st.speechEndSilenceStart = 0 := not_ne_iff.mp hs
    unfold silenceStopCheck
    rw [if_neg (fun hx => hs hx.1)]
    unfold loopTail
    simp [hrec, harm, hs0]

/-- C1: with a recording in progress and stop-on-voice-deactivity armed:
(a) a trace of non-speech frames — the first arriving once the recording is
older than `min_length_of_recording`, the rest staying below the
`post_speech_silence_duration` threshold, and a last one reaching it —
finalizes the utterance into `last_frames`, fires the stop event, leaves the
recording state, disarms the deactivity trigger and clears the silence timer;
(b) a speech-classified frame keeps the state recording and resets the silence
timer to zero. -/
theorem c1_silence_stop_and_speech_reset :
    (∀ (cfg : RecCfg) (st : RecState) (t0 tl : ℚ) (d0 dl : Frame)
        (mid : List (ℚ × Frame)),
      st.isRecording = true →
      st.stopRecordingOnVoiceDeactivity = true →
      st.speechEndSilenceStart = 0 →
      0 < t0 →
      t0 - st.recordingStartTime > cfg.minLengthOfRecording →
      0 < cfg.postSpeechSilenceDuration →
      (∀ p ∈ mid, p.1 - t0 < cfg.postSpeechSilenceDuration) →
      tl - t0 ≥ cfg.postSpeechSilenceDuration →
      (runRecording cfg st
          ((t0, false, d0) :: (mid.map (fun p => (p.1, false, p.2)) ++ [(tl, false, dl)]))).isRecording
          = false ∧
        (runRecording cfg st
          ((t0, false, d0) :: (mid.map (fun p => (p.1, false, p.2)) ++ [(tl, false, dl)]))).stopRecordingEvent
          = true ∧
        (runRecording cfg st
          ((t0, false, d0) :: (mid.map (fun p => (p.1, false, p.2)) ++ [(tl, false, dl)]))).stopRecordingOnVoiceDeactivity
          = false ∧
        (runRecording cfg st
          ((t0, false, d0) :: (mid.map (fun p => (p.1, false, p.2)) ++ [(tl, false, dl)]))).lastFrames
          = st.frames ++ [d0] ++ mid.map Prod.snd ++ [dl] ∧
        (runRecording cfg st
          ((t0, false, d0) :: (mid.map (fun p => (p.1, false, p.2)) ++ [(tl, false, dl)]))).speechEndSilenceStart
          = 0) ∧
    (∀ (cfg : RecCfg) (st : RecState) (t : ℚ) (d : Frame),
      st.isRecording = true →
      st.stopRecordingOnVoiceDeactivity = true →
      (recordingFrameStep cfg st t true d).isRecording = true ∧
        (recordingFrameStep cfg st t true d).speechEndSilenceStart = 0) := by
  constructor
  · intro cfg st t0 tl d0 dl mid hrec harm h0 ht0pos hmin hD hmid hge
    have ht0 : t0 ≠ 0 := ne_of_gt ht0pos
    have hfirst := recordingFrameStep_silence_first cfg st t0 d0 hrec harm h0 ht0 hmin hD
    set st1 := recordingFrameStep cfg st t0 false d0 with hst1
    have hhold := runRecording_silence_hold cfg t0 ht0 mid st1
      hfirst.1 hfirst.2.1 hfirst.2.2.1 hfirst.2.2.2.2.2 hmid
    set st2 := runRecording cfg st1 (mid.map (fun p => (p.1, false, p.2))) with hst2
    have hminlen : ¬(tl - st2.recordingStartTime < cfg.minLengthOfRecording) := by
      rw [hhold.2.2.2.1, hfirst.2.2.2.1]
      have : tl ≥ t0 + cfg.postSpeechSilenceDuration := by linarith
      push_neg
      linarith
    have hstop := recordingFrameStep_silence_stop cfg st2 t0 tl dl
      hhold.1 hhold.2.1 hhold.2.2.1 ht0 hge hminlen hhold.2.2.2.2.2
    have hrun : runRecording cfg st
        ((t0, false, d0) :: (mid.map (fun p => (p.1, false, p.2)) ++ [(tl, false, dl)]))
        = recordingFrameStep cfg st2 tl false dl := by
      rw [runRecording, List.foldl_cons, List.foldl_append]
      rfl
    rw [hrun]
    refine ⟨hstop.1, hstop.2.1, hstop.2.2.1, ?_, hstop.2.2.2.2⟩
    rw [hstop.2.2.2.1, hhold.2.2.2.2.1, hfirst.2.2.2.2.1]
  · intro cfg st t d hrec harm
    exact ⟨(recordingFrameStep_speech cfg st t d hrec harm).1,
      (recordingFrameStep_speech cfg st t d hrec harm).2.1⟩


/-- C1 witness: minimum recording length 0.5 s, silence threshold 0.6 s,
recording started at time 0; one non-speech frame at t = 1 starts the silence
timer and a non-speech frame at t = 1.6 stops the recording; a speech frame
keeps another armed recording state recording with the timer cleared. -/
theorem c1_silence_stop_and_speech_reset_witness :
    ((runRecording ⟨1/2, 3/5, 0, 0⟩
        ⟨true, true, 0, 0, 0, 0, 0, [], [], [], true, false, true, 0, 0, 0, true⟩
        ((1, false, [1]) :: (([] : List (ℚ × Frame)).map (fun p => (p.1, false, p.2))
          ++ [(8/5, false, [2])]))).isRecording = false ∧
      (runRecording ⟨1/2, 3/5, 0, 0⟩
        ⟨true, true, 0, 0, 0, 0, 0, [], [], [], true, false, true, 0, 0, 0, true⟩
        ((1, false, [1]) :: (([] : List (ℚ × Frame)).map (fun p => (p.1, false, p.2))
          ++ [(8/5, false, [2])]))).stopRecordingEvent = true ∧
      (runRecording ⟨1/2, 3/5, 0, 0⟩
        ⟨true, true, 0, 0, 0, 0, 0, [], [], [], true, false, true, 0, 0, 0, true⟩
        ((1, false, [1]) :: (([] : List (ℚ × Frame)).map (fun p => (p.1, false, p.2))
          ++ [(8/5, false, [2])]))).stopRecordingOnVoiceDeactivity = false ∧
      (runRecording ⟨1/2, 3/5, 0, 0⟩
        ⟨true, true, 0, 0, 0, 0, 0, [], [], [], true, false, true, 0, 0, 0, true⟩
        ((1, false, [1]) :: (([] : List (ℚ × Frame)).map (fun p => (p.1, false, p.2))
          ++ [(8/5, false, [2])]))).lastFrames
        = ([] : List Frame) ++ [[1]] ++ ([] : List (ℚ × Frame)).map Prod.snd ++ [[2]] ∧
      (runRecording ⟨1/2, 3/5, 0, 0⟩
        ⟨true, true, 0, 0, 0, 0, 0, [], [], [], true, false, true, 0, 0, 0, true⟩
        ((1, false, [1]) :: (([] : List (ℚ × Frame)).map (fun p => (p.1, false, p.2))
          ++ [(8/5, false, [2])]))).speechEndSilenceStart = 0) ∧
    ((recordingFrameStep ⟨1/2, 3/5, 0, 0⟩
        ⟨true, true, 1, 0, 0, 0, 0, [], [], [], true, false, true, 0, 0, 0, true⟩
        2 true [3]).isRecording = true ∧
      (recordingFrameStep ⟨1/2, 3/5, 0, 0⟩
        ⟨true, true, 1, 0, 0, 0, 0, [], [], [], true, false, true, 0, 0, 0, true⟩
        2 true [3]).speechEndSilenceStart = 0) := by
  constructor
  · refine c1_silence_stop_and_speech_reset.1 ⟨1/2, 3/5, 0, 0⟩
      ⟨true, true, 0, 0, 0, 0, 0, [], [], [], true, false, true, 0, 0, 0, true⟩
      1 (8/5) [1] [2] [] rfl rfl rfl (by norm_num) (by norm_num) (by norm_num)
      (by intro p hp; simp at hp) (by norm_num)
  · exact c1_silence_stop_and_speech_reset.2 ⟨1/2, 3/5, 0, 0⟩
      ⟨true, true, 1, 0, 0, 0, 0, [], [], [], true, false, true, 0, 0, 0, true⟩
      2 [3] rfl rfl

end RealtimeSTT
